import Mathlib

/-!
A verification development for the OrionsOnion repository
(src/MonthlyBudget.py and src/TipCalculator2.0.py).

The heart of the code is the function `evaluate_math` of MonthlyBudget.py:

  strip the input; try float(input); check the character whitelist
  (regex `[digits + - * / . ( ) whitespace]+`); finally run CPython's
  `eval` with emptied builtins and convert the result with float().

We embed the strings as `List Char` and the numeric semantics over `ℚ`.
The spec (section 4.1) explicitly allows "floating-point (or decimal)
arithmetic", so numbers are modelled exactly over the rationals: IEEE
rounding, float overflow at about 1.8e308, and CPython's recursion limit
on deeply nested parentheses are idealized away.  CPython behaviours that
fall outside the exact fragment are modelled as follows: non-integral
exponents of the power operator produce irrational or complex floats and
are modelled as failure of qpow; the inf/infinity/nan words accepted by
float() denote non-finite floats with no rational value, so pyFloat?
cannot return them — the Boolean pyFloatAccepts records float()'s full
acceptance domain, and every claim about rejection carries
pyFloatAccepts _ = false where the boundary matters.  The character
classes are the ASCII fragments of Python's Unicode classes (the regex
\d and \s, float()'s numeral alphabet); claims whose truth depends on
that boundary are stated for ASCII inputs.
-/

/-- The blank characters CPython's tokenizer skips between tokens of a
single-line expression: space, tab and form feed (tokenizer.c skips
exactly ' ', '\t' and '\014' inside a line).  A bare interior newline ends
the logical line and is a syntax error outside parentheses, so it is not a
token separator; continuation lines inside parentheses are not modelled,
which only makes the model reject a few strings CPython accepts and
touches no claim. -/
def isBlank (c : Char) : Bool :=
  c = ' ' || c = '\t' || c = '\x0c'

/-- The ASCII whitespace characters of Python: removed by str.strip(),
matched by the regex class \s, and skipped around a float() numeral.
On ASCII these three agree: space, \t, \n, \r, \v, \f and the four
separator control characters \x1c-\x1f. -/
def isPySpace (c : Char) : Bool :=
  c = ' ' || c = '\t' || c = '\n' || c = '\r' || c = '\x0b' || c = '\x0c' ||
    c = '\x1c' || c = '\x1d' || c = '\x1e' || c = '\x1f'

/-- Drop the blanks before the next token. -/
def skipBlank (s : List Char) : List Char :=
  s.dropWhile isBlank

/-- Drop the spec's whitespace before the next token: the separator class
of the conventional, spec-faithful grammar (section 4.1 step 2 allows any
whitespace between tokens). -/
def skipWS (s : List Char) : List Char :=
  s.dropWhile isPySpace

/-- Python's str.strip(): remove leading and trailing whitespace. -/
def pyStrip (s : List Char) : List Char :=
  ((s.dropWhile isPySpace).reverse.dropWhile isPySpace).reverse

/-- A character of the whitelist class of MonthlyBudget.py line 26:
digits, the four operators, dot, parentheses and whitespace.  The regex
classes \d and \s are Unicode; this is their ASCII fragment, which is the
exact class on ASCII strings.  (Non-ASCII members — Unicode decimal
digits and exotic whitespace — are also accepted by float() or rejected
by CPython's tokenizer, so the claims that depend on the boundary, C2 in
particular, are stated for ASCII inputs.) -/
def wlChar (c : Char) : Bool :=
  c.isDigit || c = '+' || c = '-' || c = '*' || c = '/' ||
    c = '.' || c = '(' || c = ')' || isPySpace c

/-- The whitelist test of line 26: re.match of `[class]+` anchored on both
sides holds exactly when the string is nonempty and every character is in
the class. -/
def pyWhitelisted (s : List Char) : Bool :=
  !s.isEmpty && s.all wlChar

/-- Numeric value of a decimal digit. -/
def digitVal (c : Char) : ℕ :=
  c.toNat - '0'.toNat

/-- Value of a digit string read in base 10. -/
def natOfDigits (ds : List Char) : ℕ :=
  ds.foldl (fun a c => 10 * a + digitVal c) 0

mutual

/-- Read a maximal CPython digit run digit (underscore? digit)* from the
front of the string: single underscores are allowed between digits only
("1_0" reads as the digits 10, "1__0" and "1_" stop before the
underscore).  Returns the digits with the separators dropped, and the
unread rest. -/
def takeUDigits : List Char → List Char × List Char
  | [] => ([], [])
  | c :: t =>
    if c.isDigit = true then
      match takeUDigitsTail t with
      | (ds, r) => (c :: ds, r)
    else ([], c :: t)

/-- After a digit: more digits, or an underscore that must be followed by
a further digit run (otherwise the run stops before the underscore). -/
def takeUDigitsTail : List Char → List Char × List Char
  | [] => ([], [])
  | c :: t =>
    if c = '_' then
      match takeUDigits t with
      | ([], _) => ([], '_' :: t)
      | (ds, r) => (ds, r)
    else if c.isDigit = true then
      match takeUDigitsTail t with
      | (ds, r) => (c :: ds, r)
    else ([], c :: t)

end

/-- Read a decimal mantissa from the front of the string: a digit run with
an optional point, at least one digit overall, underscores allowed between
digits (the forms accepted both by float() and by a CPython pointfloat or
decinteger literal, leading-zero questions aside).  Returns the value and
the unread rest. -/
def decMantissa (s : List Char) : Option (ℚ × List Char) :=
  match takeUDigits s with
  | (d1, '.' :: r2) =>
    match takeUDigits r2 with
    | (d2, r3) =>
      if d1.isEmpty && d2.isEmpty then none
      else some ((natOfDigits d1 : ℚ) + (natOfDigits d2 : ℚ) / (10 : ℚ) ^ d2.length,
        r3)
  | (d1, r1) => if d1.isEmpty then none else some ((natOfDigits d1 : ℚ), r1)

/-- CPython forbids leading zeros in decimal integer literals ("01" is a
SyntaxError, "0", "00" and "007.5" are fine).  This test recognises the
bad case: the digit run starts with 0, is not all zeros, and is not
followed by a point (so the literal is an integer one). -/
def intLZBad (s : List Char) : Bool :=
  let d1 := s.takeWhile Char.isDigit
  d1.head? = some '0' && !(d1.all (fun c => c = '0')) &&
    !((s.dropWhile Char.isDigit).head? = some '.')

/-- A CPython numeric literal over the whitelisted alphabet: a decimal
mantissa subject to the leading-zero rule for integer literals.  Exponent
forms need the letter e, and underscore separators need the underscore —
both are outside the whitelist, so neither ever reaches eval; the
underscore support decMantissa shares with the float() model is inert
here, and the leading-zero test may read the run up to the first
underscore only on those unreachable strings. -/
def pyNumber (s : List Char) : Option (ℚ × List Char) :=
  if intLZBad s then none else decMantissa s

/-- The digit run of an exponent part: the whole remaining string must be
one digit run (underscores between digits allowed, as in "1e1_0"). -/
def pyFloatExpDigits (t : List Char) : Option ℕ :=
  match takeUDigits t with
  | (ds, []) => if ds.isEmpty then none else some (natOfDigits ds)
  | _ => none

/-- The exponent part of a float literal after the letter e: an optional
sign and a digit run, giving the scale factor. -/
def pyFloatExp (s : List Char) : Option ℚ :=
  match s with
  | '-' :: t => (pyFloatExpDigits t).map (fun e => ((10 : ℚ) ^ e)⁻¹)
  | '+' :: t => (pyFloatExpDigits t).map (fun e => ((10 : ℚ) ^ e))
  | t => (pyFloatExpDigits t).map (fun e => ((10 : ℚ) ^ e))

/-- The unsigned part of a float literal: a decimal mantissa followed by
nothing, or by an exponent part introduced by e or E. -/
def pyFloatCore (s : List Char) : Option ℚ :=
  match decMantissa s with
  | none => none
  | some (m, r) =>
    match r with
    | [] => some m
    | c :: r1 =>
      if c = 'e' || c = 'E' then (pyFloatExp r1).map (fun e => m * e)
      else none

/-- Python's float() on a stripped string, restricted to its finite
results: optional sign, decimal mantissa, optional exponent part, nothing
else, underscore digit separators allowed between digits throughout.
Every such value is an exact rational and is returned exactly.  float()
additionally accepts the inf/infinity/nan words (see pyFloatWord below);
their values are non-finite floats with no rational counterpart, so this
function cannot return them — pyFloatAccepts carries the full acceptance
domain. -/
def pyFloat? (s : List Char) : Option ℚ :=
  match s with
  | '-' :: t => (pyFloatCore t).map (fun m => -m)
  | '+' :: t => pyFloatCore t
  | t => pyFloatCore t

/-- The non-finite words float() accepts, letter case ignored: inf,
infinity and nan. -/
def pyFloatWord (t : List Char) : Bool :=
  t.map Char.toLower = "inf".toList || t.map Char.toLower = "infinity".toList ||
    t.map Char.toLower = "nan".toList

/-- The full acceptance domain of float() on a stripped ASCII string: the
finite numeric forms of pyFloat?, or an optionally signed
inf/infinity/nan word.  A false result is exactly the ValueError branch
of the try at lines 20-23 of MonthlyBudget.py. -/
def pyFloatAccepts (s : List Char) : Bool :=
  (pyFloat? s).isSome ||
    (match s with
     | '-' :: t => pyFloatWord t
     | '+' :: t => pyFloatWord t
     | t => pyFloatWord t)

/-- CPython's power operator on exact rationals: defined for integral
exponents (0 ** 0 = 1; a negative exponent of zero raises
ZeroDivisionError).  A non-integral exponent yields an irrational or
complex float in CPython, outside the exact model; modelled as failure. -/
def qpow (a b : ℚ) : Option ℚ :=
  if b.den = 1 then
    if 0 ≤ b.num then some (a ^ b.num.toNat)
    else if a = 0 then none
    else some ((a ^ (-b.num).toNat)⁻¹)
  else none

/-- CPython's floor division on exact rationals; division by zero raises. -/
def qfloordiv (a b : ℚ) : Option ℚ :=
  if b = 0 then none else some ((⌊a / b⌋ : ℤ) : ℚ)

example : decMantissa "12.5".toList = some ((25 : ℚ) / 2, []) := by
  with_unfolding_all rfl
example : decMantissa ".5".toList = some ((1 : ℚ) / 2, []) := by
  with_unfolding_all rfl
example : decMantissa "1.".toList = some ((1 : ℚ), []) := by
  with_unfolding_all rfl
example : decMantissa "".toList = none := by with_unfolding_all rfl
example : pyNumber "01".toList = none := by with_unfolding_all rfl
example : pyNumber "00".toList = some ((0 : ℚ), []) := by with_unfolding_all rfl
example : pyNumber "007.5".toList = some ((15 : ℚ) / 2, []) := by
  with_unfolding_all rfl
example : pyFloat? "1e5".toList = some (100000 : ℚ) := by with_unfolding_all rfl
example : pyFloat? "-12.5".toList = some (-(25 : ℚ) / 2) := by
  with_unfolding_all rfl
example : pyFloat? "2**3".toList = none := by with_unfolding_all rfl
example : pyFloat? "1_0".toList = some (10 : ℚ) := by with_unfolding_all rfl
example : pyFloat? "1_0.2_5e1_0".toList = some ((1025 : ℚ) * 10 ^ 8) := by
  with_unfolding_all rfl
example : pyFloat? "1__0".toList = none := by with_unfolding_all rfl
example : pyFloat? "1_".toList = none := by with_unfolding_all rfl
example : pyFloat? "_1".toList = none := by with_unfolding_all rfl
example : pyFloat? "1_.5".toList = none := by with_unfolding_all rfl
example : pyFloatAccepts "1_0".toList = true := by with_unfolding_all rfl
example : pyFloatAccepts "inf".toList = true := by with_unfolding_all rfl
example : pyFloatAccepts "-Infinity".toList = true := by with_unfolding_all rfl
example : pyFloatAccepts "+NaN".toList = true := by with_unfolding_all rfl
example : pyFloatAccepts "2a".toList = false := by with_unfolding_all rfl
example : pyFloatAccepts "1e5".toList = true := by with_unfolding_all rfl
example : qpow 2 3 = some 8 := by with_unfolding_all rfl
example : qfloordiv 7 2 = some 3 := by with_unfolding_all rfl

/-!
The expression grammar CPython's eval sees for strings over the whitelisted
alphabet (digits, the four operator characters, dot, parentheses and
whitespace).  Identifiers, attribute accesses, strings, commas, brackets
and every other construct need characters outside the alphabet; the only
reachable productions are

  a_expr  := m_expr (("+" | "-") m_expr)*            left associative
  m_expr  := u_expr (("*" | "/" | "//") u_expr)*     left associative
  u_expr  := ("-" | "+") u_expr | power
  power   := primary ["**" u_expr]                   right associative
  primary := number | "(" a_expr ")"

together with CPython's literal rules (pyNumber).  Runtime errors
(ZeroDivisionError, the OverflowError/TypeError raised by the final
float()) and syntax errors are all caught by the bare except of
evaluate_math, so both are modelled as `none`.  The recursion is fueled;
both the model of eval and the spec-side parser below are run with the
same fuel seed `pyFuel`, so the fuel never has to be compared.
-/

mutual

/-- Primary: a numeric literal or a parenthesized expression. -/
def pyAtom : Nat → List Char → Option (ℚ × List Char)
  | 0, _ => none
  | n+1, s =>
    match skipBlank s with
    | '(' :: t =>
      match pyA n t with
      | some (v, r) =>
        match skipBlank r with
        | ')' :: r2 => some (v, r2)
        | _ => none
      | none => none
    | t => pyNumber t

/-- Power: primary, optionally followed by ** and a unary expression. -/
def pyPow : Nat → List Char → Option (ℚ × List Char)
  | 0, _ => none
  | n+1, s =>
    match pyAtom n s with
    | some (v, r) =>
      match skipBlank r with
      | '*' :: '*' :: t =>
        match pyU n t with
        | some (w, r2) =>
          match qpow v w with
          | some u => some (u, r2)
          | none => none
        | none => none
      | _ => some (v, r)
    | none => none

/-- Unary expression: optional unary minus or plus chain over power. -/
def pyU : Nat → List Char → Option (ℚ × List Char)
  | 0, _ => none
  | n+1, s =>
    match skipBlank s with
    | '-' :: t =>
      match pyU n t with
      | some (w, r) => some (-w, r)
      | none => none
    | '+' :: t => pyU n t
    | t => pyPow n t

/-- Multiplicative expression. -/
def pyM : Nat → List Char → Option (ℚ × List Char)
  | 0, _ => none
  | n+1, s =>
    match pyU n s with
    | some (v, r) => pyMLoop n v r
    | none => none

/-- Fold the left-associative *, / and // operators.  A ** pair is the
power operator and never a multiplication; the two stars must be adjacent
(CPython tokenizes "* *" as two operators, a syntax error). -/
def pyMLoop : Nat → ℚ → List Char → Option (ℚ × List Char)
  | 0, _, _ => none
  | n+1, a, s =>
    match skipBlank s with
    | '*' :: '*' :: _ => some (a, s)
    | '*' :: t =>
      match pyU n t with
      | some (w, r) => pyMLoop n (a * w) r
      | none => none
    | '/' :: '/' :: t =>
      match pyU n t with
      | some (w, r) =>
        match qfloordiv a w with
        | some u => pyMLoop n u r
        | none => none
      | none => none
    | '/' :: t =>
      match pyU n t with
      | some (w, r) => if w = 0 then none else pyMLoop n (a / w) r
      | none => none
    | _ => some (a, s)

/-- Additive expression. -/
def pyA : Nat → List Char → Option (ℚ × List Char)
  | 0, _ => none
  | n+1, s =>
    match pyM n s with
    | some (v, r) => pyALoop n v r
    | none => none

/-- Fold the left-associative + and - operators. -/
def pyALoop : Nat → ℚ → List Char → Option (ℚ × List Char)
  | 0, _, _ => none
  | n+1, a, s =>
    match skipBlank s with
    | '+' :: t =>
      match pyM n t with
      | some (w, r) => pyALoop n (a + w) r
      | none => none
    | '-' :: t =>
      match pyM n t with
      | some (w, r) => pyALoop n (a - w) r
      | none => none
    | _ => some (a, s)

end

/-- Fuel seed: generously larger than the number of recursive calls any
parse of s can make (each grammar level costs a constant amount of fuel
per consumed character). -/
def pyFuel (s : List Char) : Nat :=
  8 * s.length + 8

/-- The model of line 30 of MonthlyBudget.py: CPython eval with emptied
builtins applied to a whitelisted stripped string, followed by float().
The result is the whole input parsed as an a_expr; leftover characters,
runtime errors and syntax errors all fall into the bare except. -/
def pyEvalExpr (s : List Char) : Option ℚ :=
  match pyA (pyFuel s) s with
  | some (v, r) => if (skipBlank r).isEmpty then some v else none
  | none => none

/-- The model of evaluate_math (MonthlyBudget.py lines 10-33): strip the
input, return float(input) when it parses directly, otherwise check the
character whitelist and evaluate the expression; every failure path
returns None. -/
def evaluate_math (s : List Char) : Option ℚ :=
  let t := pyStrip s
  match pyFloat? t with
  | some v => some v
  | none => if pyWhitelisted t then pyEvalExpr t else none

example : evaluate_math "2+2".toList = some 4 := by with_unfolding_all rfl
example : evaluate_math "(1+2)*3".toList = some 9 := by with_unfolding_all rfl
example : evaluate_math "40*52/12".toList = some (520 / 3 : ℚ) := by
  with_unfolding_all rfl
example : evaluate_math "10/0".toList = none := by with_unfolding_all rfl
example : evaluate_math "".toList = none := by with_unfolding_all rfl
example : evaluate_math "1+".toList = none := by with_unfolding_all rfl
example : evaluate_math "2**3".toList = some 8 := by with_unfolding_all rfl
example : evaluate_math "7//2".toList = some 3 := by with_unfolding_all rfl
example : evaluate_math "01+1".toList = none := by with_unfolding_all rfl
example : evaluate_math "1e5".toList = some 100000 := by with_unfolding_all rfl
example : evaluate_math " 12.5 ".toList = some (25 / 2 : ℚ) := by
  with_unfolding_all rfl
example : evaluate_math "2*-3".toList = some (-6) := by with_unfolding_all rfl
example : evaluate_math "-2**2".toList = some (-4) := by with_unfolding_all rfl
example : evaluate_math "(1+2".toList = none := by with_unfolding_all rfl

/-!
The evaluator the spec describes (section 4.1, step 3, and the design
rationale of section 9): a recursive-descent parser restricted to the four
arithmetic operators with conventional precedence, parenthesis grouping
and unary plus/minus (the edge-case list of section 4.1 asks for unary
sign support).  It is parameterized by the token-separator skipper and by
the numeral parser.  The conventional, spec-faithful instantiation
specEvalConv uses the spec's whitespace class (skipWS) and any decimal
numeral (decMantissa); the instantiation specEvalStrict behind the
refinement theorem shares CPython's intra-line separator set (skipBlank)
with the eval model and restricts numerals to the code's literal syntax
(pyNumber: no superfluous leading zeros in integer literals) — both
restrictions are part of the amended claim C5, and the gap between the
two separator classes is exhibited by the newline counterexample.  The
grammar levels mirror the CPython fragment above level by level — sPow is
a pass-through since the four-operator grammar has no exponentiation — so
that the two developments can be related by a single induction on the
fuel.
-/

mutual

/-- Spec grammar atom: a numeral or a parenthesized expression. -/
def sAtom (skip : List Char → List Char)
    (num : List Char → Option (ℚ × List Char)) :
    Nat → List Char → Option (ℚ × List Char)
  | 0, _ => none
  | n+1, s =>
    match skip s with
    | '(' :: t =>
      match sE skip num n t with
      | some (v, r) =>
        match skip r with
        | ')' :: r2 => some (v, r2)
        | _ => none
      | none => none
    | t => num t

/-- Pass-through level: the four-operator grammar has no power operator. -/
def sPow (skip : List Char → List Char)
    (num : List Char → Option (ℚ × List Char)) :
    Nat → List Char → Option (ℚ × List Char)
  | 0, _ => none
  | n+1, s => sAtom skip num n s

/-- Spec grammar factor: optional unary signs over an atom. -/
def sF (skip : List Char → List Char)
    (num : List Char → Option (ℚ × List Char)) :
    Nat → List Char → Option (ℚ × List Char)
  | 0, _ => none
  | n+1, s =>
    match skip s with
    | '-' :: t =>
      match sF skip num n t with
      | some (w, r) => some (-w, r)
      | none => none
    | '+' :: t => sF skip num n t
    | t => sPow skip num n t

/-- Spec grammar term. -/
def sT (skip : List Char → List Char)
    (num : List Char → Option (ℚ × List Char)) :
    Nat → List Char → Option (ℚ × List Char)
  | 0, _ => none
  | n+1, s =>
    match sF skip num n s with
    | some (v, r) => sTLoop skip num n v r
    | none => none

/-- Fold the left-associative * and / of the spec grammar; division by
zero is an evaluation error, hence rejection. -/
def sTLoop (skip : List Char → List Char)
    (num : List Char → Option (ℚ × List Char)) :
    Nat → ℚ → List Char → Option (ℚ × List Char)
  | 0, _, _ => none
  | n+1, a, s =>
    match skip s with
    | '*' :: t =>
      match sF skip num n t with
      | some (w, r) => sTLoop skip num n (a * w) r
      | none => none
    | '/' :: t =>
      match sF skip num n t with
      | some (w, r) => if w = 0 then none else sTLoop skip num n (a / w) r
      | none => none
    | _ => some (a, s)

/-- Spec grammar expression. -/
def sE (skip : List Char → List Char)
    (num : List Char → Option (ℚ × List Char)) :
    Nat → List Char → Option (ℚ × List Char)
  | 0, _ => none
  | n+1, s =>
    match sT skip num n s with
    | some (v, r) => sELoop skip num n v r
    | none => none

/-- Fold the left-associative + and - of the spec grammar. -/
def sELoop (skip : List Char → List Char)
    (num : List Char → Option (ℚ × List Char)) :
    Nat → ℚ → List Char → Option (ℚ × List Char)
  | 0, _, _ => none
  | n+1, a, s =>
    match skip s with
    | '+' :: t =>
      match sT skip num n t with
      | some (w, r) => sELoop skip num n (a + w) r
      | none => none
    | '-' :: t =>
      match sT skip num n t with
      | some (w, r) => sELoop skip num n (a - w) r
      | none => none
    | _ => some (a, s)

end

/-- The restricted arithmetic evaluator described by the spec, with
conventional decimal numerals and the spec's whitespace between tokens:
the whole string must be one expression of the four-operator grammar. -/
def specEvalConv (s : List Char) : Option ℚ :=
  match sE skipWS decMantissa (pyFuel s) s with
  | some (v, r) => if (skipWS r).isEmpty then some v else none
  | none => none

/-- The restricted arithmetic evaluator of the spec with its numerals
restricted to the literal syntax the code accepts (no superfluous leading
zeros in integer literals) and its token separators restricted to
CPython's intra-line whitespace (space, tab, form feed) — the grammar of
the amended claim C5. -/
def specEvalStrict (s : List Char) : Option ℚ :=
  match sE skipBlank pyNumber (pyFuel s) s with
  | some (v, r) => if (skipBlank r).isEmpty then some v else none
  | none => none

example : specEvalConv "01+1".toList = some 2 := by with_unfolding_all rfl
example : specEvalConv "2+\n2".toList = some 4 := by with_unfolding_all rfl
example : evaluate_math "2+\n2".toList = none := by with_unfolding_all rfl
example : evaluate_math "2+\x0c2".toList = some 4 := by with_unfolding_all rfl
example : specEvalStrict "01+1".toList = none := by with_unfolding_all rfl
example : specEvalStrict "2+\n2".toList = none := by with_unfolding_all rfl
example : specEvalStrict "(1+2)*3".toList = some 9 := by with_unfolding_all rfl
example : specEvalStrict "2**3".toList = none := by with_unfolding_all rfl
example : specEvalStrict "7//2".toList = none := by with_unfolding_all rfl
example : specEvalStrict "2 * -3".toList = some (-6) := by with_unfolding_all rfl
example : specEvalStrict "1/0".toList = none := by with_unfolding_all rfl

/-!
The data model of MonthlyBudget.py's session state and its handlers, and
the tip calculator of TipCalculator2.0.py.
-/

/-- An entry of st.session_state.income_items: a dict with source and
amount. -/
structure IncomeItem where
  source : String
  amount : ℚ
deriving DecidableEq

/-- An entry of st.session_state.expense_items: a dict with category, name
and amount. -/
structure ExpenseItem where
  category : String
  name : String
  amount : ℚ
deriving DecidableEq

/-- The session state of MonthlyBudget.py (lines 43-51). -/
structure BudgetState where
  income_items : List IncomeItem
  expense_items : List ExpenseItem
  custom_categories : List String
deriving DecidableEq

/-- Total income (line 197): the sum of the amounts. -/
def total_income (items : List IncomeItem) : ℚ :=
  (items.map IncomeItem.amount).sum

/-- Total expenses (line 198): the sum of the amounts. -/
def total_expenses (items : List ExpenseItem) : ℚ :=
  (items.map ExpenseItem.amount).sum

/-- The Add Income button handler (lines 83-93).  The amount is evaluated
only when the input field is nonempty (Python truthiness of the string);
the item is appended only when the source is nonempty and the calculated
amount is truthy (not None, not zero) and positive, which is equivalent to
being present and positive.  Otherwise the state is untouched. -/
def addIncome (st : BudgetState) (source : String) (input : List Char) :
    BudgetState :=
  match (if input.isEmpty then none else evaluate_math input) with
  | some v =>
    if source ≠ "" ∧ 0 < v then
      { st with income_items := st.income_items ++ [⟨source, v⟩] }
    else st
  | none => st

/-- The Add Expense button handler (lines 134-145); the category comes
from the selectbox over the current category list (lines 111-115). -/
def addExpense (st : BudgetState) (cat name : String) (input : List Char) :
    BudgetState :=
  match (if input.isEmpty then none else evaluate_math input) with
  | some v =>
    if name ≠ "" ∧ 0 < v then
      { st with expense_items := st.expense_items ++ [⟨cat, name, v⟩] }
    else st
  | none => st

/-- The Add Category button handler (lines 101-109): appended only when
nonempty and not already present. -/
def addCategory (st : BudgetState) (c : String) : BudgetState :=
  if c ≠ "" ∧ c ∉ st.custom_categories then
    { st with custom_categories := st.custom_categories ++ [c] }
  else st

/-- The category delete button (lines 156-166): the button is disabled
when any expense item references the category, so the deletion fires only
for unreferenced categories; list.remove drops the first occurrence. -/
def deleteCategory (st : BudgetState) (c : String) : BudgetState :=
  if st.expense_items.any (fun it => it.category = c) then st
  else { st with custom_categories := st.custom_categories.erase c }

/-- The income delete button (lines 232-235): pop by position. -/
def deleteIncomeAt (st : BudgetState) (i : Nat) : BudgetState :=
  { st with income_items := st.income_items.eraseIdx i }

/-- The expense delete button (lines 253-256): pop by position. -/
def deleteExpenseAt (st : BudgetState) (i : Nat) : BudgetState :=
  { st with expense_items := st.expense_items.eraseIdx i }

/-- The Clear All button (lines 173-176). -/
def clearAll (st : BudgetState) : BudgetState :=
  { st with income_items := [], expense_items := [] }

/-- The referential-integrity invariant: every expense item's category is
in the category list. -/
def CatInv (st : BudgetState) : Prop :=
  ∀ it ∈ st.expense_items, it.category ∈ st.custom_categories

instance (st : BudgetState) : Decidable (CatInv st) := by
  unfold CatInv; infer_instance

/-- The result dict of calculate_tip in TipCalculator2.0.py. -/
structure TipResult where
  bill : ℚ
  tip_amount : ℚ
  total : ℚ
  num_people : ℕ
  per_person : ℚ
  tip_per_person : ℚ
deriving DecidableEq

/-- calculate_tip (TipCalculator2.0.py lines 8-32). -/
def calculate_tip (bill_amount tip_percentage : ℚ) (num_people : ℕ := 1) :
    TipResult :=
  let tip_amount := bill_amount * (tip_percentage / 100)
  let total_amount := bill_amount + tip_amount
  let amount_per_person := total_amount / (num_people : ℚ)
  let tip_per_person := tip_amount / (num_people : ℚ)
  { bill := bill_amount
    tip_amount := tip_amount
    total := total_amount
    num_people := num_people
    per_person := amount_per_person
    tip_per_person := tip_per_person }

example : calculate_tip 100 20 4 = ⟨100, 20, 120, 4, 30, 5⟩ := by
  with_unfolding_all rfl

/-! Helper lemmas about stripping and the whitelist. -/

/-- A member that the predicate rejects survives dropWhile. -/
theorem mem_dropWhile_of_mem {p : Char → Bool} {c : Char} :
    ∀ {l : List Char}, c ∈ l → p c = false → c ∈ l.dropWhile p := by
  intro l
  induction l with
  | nil => intro h; cases h
  | cons a t ih =>
    intro hc hp
    by_cases ha : p a = true
    · rw [List.dropWhile_cons_of_pos ha]
      rcases List.mem_cons.mp hc with rfl | ht
      · rw [hp] at ha; cases ha
      · exact ih ht hp
    · rw [List.dropWhile_cons_of_neg ha]
      exact hc

/-- A non-whitespace character of s survives str.strip(). -/
theorem mem_pyStrip {c : Char} {s : List Char} (hc : c ∈ s)
    (hp : isPySpace c = false) : c ∈ pyStrip s := by
  unfold pyStrip
  rw [List.mem_reverse]
  exact mem_dropWhile_of_mem (List.mem_reverse.mpr (mem_dropWhile_of_mem hc hp)) hp

/-- A string with a character outside the class fails the whitelist test. -/
theorem pyWhitelisted_eq_false {s : List Char} {c : Char} (hc : c ∈ s)
    (hw : wlChar c = false) : pyWhitelisted s = false := by
  cases h : pyWhitelisted s with
  | false => rfl
  | true =>
    exfalso
    have hall := (Bool.and_eq_true _ _).mp h |>.2
    have := List.all_eq_true.mp hall c hc
    rw [hw] at this
    cases this

/-- C3: if the trimmed string parses directly as a float literal, its
value is returned at step 1 of evaluate_math. -/
theorem C3_float_path (s : List Char) (v : ℚ)
    (h : pyFloat? (pyStrip s) = some v) : evaluate_math s = some v := by
  simp [evaluate_math, h]

/-- Witness for C3 at the input " 12.5 ". -/
theorem C3_witness : evaluate_math " 12.5 ".toList = some ((25 : ℚ) / 2) :=
  C3_float_path _ _ (by with_unfolding_all rfl)

/-- C2 counterexample: "1e5" contains the letter e and "1_0" the
underscore, both outside the whitelist, yet evaluate_math returns 100000
resp. 10 — float() succeeds at step 1, before the whitelist is ever
consulted, on exponent forms and on underscored numerals alike. -/
theorem C2_counterexample :
    (('e' ∈ "1e5".toList ∧ wlChar 'e' = false) ∧
      evaluate_math "1e5".toList = some 100000) ∧
    (('_' ∈ "1_0".toList ∧ wlChar '_' = false) ∧
      evaluate_math "1_0".toList = some 10) :=
  ⟨⟨⟨by decide, by decide⟩, by with_unfolding_all rfl⟩,
   ⟨⟨by decide, by decide⟩, by with_unfolding_all rfl⟩⟩

/-- When float() does not accept a string, the finite-value parse fails in
particular. -/
theorem pyFloat_eq_none_of_not_accepts {s : List Char}
    (h : pyFloatAccepts s = false) : pyFloat? s = none := by
  cases hf : pyFloat? s with
  | none => rfl
  | some v =>
    exfalso
    have hacc : pyFloatAccepts s = true := by
      unfold pyFloatAccepts
      rw [hf]
      rfl
    rw [hacc] at h
    cases h

/-- C2 amended: an ASCII string containing a character outside the
whitelist is rejected provided float() does not accept its trimmed form —
step 1 of evaluate_math runs before the whitelist check and accepts
exponent and sign characters, underscored numerals and the signed
inf/infinity/nan words, all built from characters outside the class.
(ASCII is required because the regex classes and float() also admit
non-ASCII Unicode digits and whitespace, outside this model.) -/
theorem C2_rejects_nonwhitelisted (s : List Char) (c : Char) (hc : c ∈ s)
    (hw : wlChar c = false) (_hascii : ∀ d ∈ s, d.toNat < 128)
    (hacc : pyFloatAccepts (pyStrip s) = false) :
    evaluate_math s = none := by
  have hf : pyFloat? (pyStrip s) = none := pyFloat_eq_none_of_not_accepts hacc
  have hsp : isPySpace c = false := by
    by_cases h : isPySpace c = true
    · exfalso
      have : wlChar c = true := by simp [wlChar, h]
      rw [hw] at this; cases this
    · exact Bool.eq_false_iff.mpr h
  have hwl : pyWhitelisted (pyStrip s) = false :=
    pyWhitelisted_eq_false (mem_pyStrip hc hsp) hw
  simp [evaluate_math, hf, hwl]

/-- Witness for the amended C2 at the input "2a". -/
theorem C2_witness : evaluate_math "2a".toList = none :=
  C2_rejects_nonwhitelisted _ 'a' (by decide) (by decide) (by decide)
    (by with_unfolding_all rfl)

/-- C4: evaluate_math rejects division by zero, malformed syntax
(unbalanced parentheses, trailing operator), the empty string, and any
pure-whitespace input. -/
theorem C4_rejects_errors :
    evaluate_math "10/0".toList = none ∧
    evaluate_math "".toList = none ∧
    evaluate_math "1+".toList = none ∧
    evaluate_math "(1+2".toList = none ∧
    ∀ s : List Char, (∀ c ∈ s, isPySpace c = true) → evaluate_math s = none := by
  refine ⟨by with_unfolding_all rfl, by with_unfolding_all rfl,
    by with_unfolding_all rfl, by with_unfolding_all rfl, ?_⟩
  intro s hs
  have h0 : s.dropWhile isPySpace = [] := List.dropWhile_eq_nil_iff.mpr hs
  have h1 : pyStrip s = [] := by simp [pyStrip, h0]
  simp only [evaluate_math, h1]
  rfl

/-- Witness for C4 at the pure-whitespace input " ". -/
theorem C4_witness : evaluate_math " ".toList = none :=
  C4_rejects_errors.2.2.2.2 " ".toList (by decide)

/-- C6: calculate_tip returns exactly the four formulas of the spec, and
splitBill(100, 20, 4) yields tip 20, total 120, per person 30, tip per
person 5. -/
theorem C6_split_bill (b p : ℚ) (n : ℕ) (_hb : 0 ≤ b) (_hp : 0 ≤ p)
    (_hn : 1 ≤ n) :
    (calculate_tip b p n).tip_amount = b * p / 100 ∧
    (calculate_tip b p n).total = b + b * p / 100 ∧
    (calculate_tip b p n).per_person = (b + b * p / 100) / (n : ℚ) ∧
    (calculate_tip b p n).tip_per_person = (b * p / 100) / (n : ℚ) ∧
    calculate_tip 100 20 4 = ⟨100, 20, 120, 4, 30, 5⟩ := by
  refine ⟨?_, ?_, ?_, ?_, by with_unfolding_all rfl⟩ <;>
    simp [calculate_tip, mul_div_assoc]

/-- Witness for C6 at billAmount 100, tipPercent 20, numPeople 4. -/
theorem C6_witness : calculate_tip 100 20 4 = ⟨100, 20, 120, 4, 30, 5⟩ :=
  (C6_split_bill 100 20 4 (by norm_num) (by norm_num) (by norm_num)).2.2.2.2

/-- C7: the totals are invariant under permutation of the item lists. -/
theorem C7_order_independence (l₁ l₂ : List IncomeItem) (h : l₁.Perm l₂)
    (e₁ e₂ : List ExpenseItem) (he : e₁.Perm e₂) :
    total_income l₁ = total_income l₂ ∧ total_expenses e₁ = total_expenses e₂ :=
  ⟨(h.map IncomeItem.amount).sum_eq, (he.map ExpenseItem.amount).sum_eq⟩

/-- Witness for C7 on two-element lists swapped. -/
theorem C7_witness :
    total_income [⟨"a", 1⟩, ⟨"b", 2⟩] = total_income [⟨"b", 2⟩, ⟨"a", 1⟩] ∧
    total_expenses [⟨"c", "x", 3⟩, ⟨"d", "y", 4⟩] =
      total_expenses [⟨"d", "y", 4⟩, ⟨"c", "x", 3⟩] :=
  C7_order_independence _ _ (List.Perm.swap _ _ _) _ _ (List.Perm.swap _ _ _)

/-- C8: an add whose evaluated amount is rejected or nonpositive leaves
the state (in particular the item lists) exactly unchanged. -/
theorem C8_nonpositive_add_noop (st : BudgetState) (source cat name : String)
    (input : List Char)
    (h : evaluate_math input = none ∨ ∃ v, evaluate_math input = some v ∧ v ≤ 0) :
    addIncome st source input = st ∧ addExpense st cat name input = st := by
  by_cases hin : input.isEmpty
  · constructor <;> simp [addIncome, addExpense, hin]
  · rcases h with h | ⟨v, hv, hle⟩
    · constructor <;> simp [addIncome, addExpense, hin, h]
    · have : ¬(0 < v) := not_lt.mpr hle
      constructor <;> simp [addIncome, addExpense, hin, hv, this]

/-- Witness for C8: the input "0" evaluates to 0 and both adds are no-ops
on a concrete state. -/
theorem C8_witness :
    addIncome ⟨[⟨"job", 100⟩], [⟨"Housing", "rent", 5⟩], ["Housing"]⟩
        "side" "0".toList =
      ⟨[⟨"job", 100⟩], [⟨"Housing", "rent", 5⟩], ["Housing"]⟩ ∧
    addExpense ⟨[⟨"job", 100⟩], [⟨"Housing", "rent", 5⟩], ["Housing"]⟩
        "Housing" "gum" "0".toList =
      ⟨[⟨"job", 100⟩], [⟨"Housing", "rent", 5⟩], ["Housing"]⟩ :=
  C8_nonpositive_add_noop _ "side" "Housing" "gum" _
    (Or.inr ⟨0, by with_unfolding_all rfl, le_refl 0⟩)

/-- Either an addIncome attempt is a no-op or it appends one item. -/
theorem addIncome_cases (st : BudgetState) (source : String)
    (input : List Char) :
    addIncome st source input = st ∨
    ∃ v : ℚ, addIncome st source input =
      { st with income_items := st.income_items ++ [⟨source, v⟩] } := by
  unfold addIncome
  split
  · split
    · exact Or.inr ⟨_, rfl⟩
    · exact Or.inl rfl
  · exact Or.inl rfl

/-- Either an addExpense attempt is a no-op or it appends one item with
the selected category. -/
theorem addExpense_cases (st : BudgetState) (c name : String)
    (input : List Char) :
    addExpense st c name input = st ∨
    ∃ v : ℚ, addExpense st c name input =
      { st with expense_items := st.expense_items ++ [⟨c, name, v⟩] } := by
  unfold addExpense
  split
  · split
    · exact Or.inr ⟨_, rfl⟩
    · exact Or.inl rfl
  · exact Or.inl rfl

/-- C9: deleting a referenced category is a no-op; deleting an
unreferenced one removes exactly that category; and the referential
integrity invariant (every expense category is in the category list) is
preserved by every operation. -/
theorem C9_category_integrity :
    (∀ (st : BudgetState) (c : String),
      st.expense_items.any (fun it => it.category = c) = true →
        deleteCategory st c = st) ∧
    (∀ (st : BudgetState) (c : String),
      st.expense_items.any (fun it => it.category = c) = false →
        (deleteCategory st c).custom_categories = st.custom_categories.erase c ∧
        (st.custom_categories.Nodup → ∀ x,
          x ∈ (deleteCategory st c).custom_categories ↔
            x ∈ st.custom_categories ∧ x ≠ c)) ∧
    (∀ (st : BudgetState) (c : String), CatInv st → CatInv (deleteCategory st c)) ∧
    (∀ (st : BudgetState) (c name : String) (input : List Char),
      CatInv st → c ∈ st.custom_categories → CatInv (addExpense st c name input)) ∧
    (∀ (st : BudgetState) (source : String) (input : List Char),
      CatInv st → CatInv (addIncome st source input)) ∧
    (∀ (st : BudgetState) (c : String), CatInv st → CatInv (addCategory st c)) ∧
    (∀ (st : BudgetState) (i : Nat), CatInv st → CatInv (deleteIncomeAt st i)) ∧
    (∀ (st : BudgetState) (i : Nat), CatInv st → CatInv (deleteExpenseAt st i)) ∧
    (∀ st : BudgetState, CatInv (clearAll st)) := by
  refine ⟨?_, ?_, ?_, ?_, ?_, ?_, ?_, ?_, ?_⟩
  · intro st c h
    simp [deleteCategory, h]
  · intro st c h
    constructor
    · simp [deleteCategory, h]
    · intro hnd x
      simp only [deleteCategory, h]
      rw [if_neg (by simp)]
      constructor
      · intro hx
        exact ⟨List.mem_of_mem_erase hx, (List.Nodup.mem_erase_iff hnd |>.mp hx).1⟩
      · intro ⟨hx, hne⟩
        exact (List.mem_erase_of_ne hne).mpr hx
  · intro st c hinv it
    unfold deleteCategory
    by_cases h : st.expense_items.any (fun it => it.category = c) = true
    · rw [if_pos h]
      exact hinv it
    · rw [if_neg h]
      intro hit
      have hne : it.category ≠ c := by
        rcases List.any_eq_false.mp (Bool.eq_false_iff.mpr h) it hit with hb
        simpa using hb
      exact (List.mem_erase_of_ne hne).mpr (hinv it hit)
  · intro st c name input hinv hc
    rcases addExpense_cases st c name input with h | ⟨v, h⟩
    · rw [h]; exact hinv
    · rw [h]
      intro it hit
      simp only [List.mem_append, List.mem_singleton] at hit
      rcases hit with hold | rfl
      · exact hinv it hold
      · exact hc
  · intro st source input hinv
    rcases addIncome_cases st source input with h | ⟨v, h⟩ <;>
      · rw [h]; exact hinv
  · intro st c hinv
    unfold addCategory
    by_cases hcond : c ≠ "" ∧ c ∉ st.custom_categories
    · rw [if_pos hcond]
      exact fun it hit => List.mem_append_left _ (hinv it hit)
    · rw [if_neg hcond]
      exact hinv
  · intro st i hinv it hit
    exact hinv it hit
  · intro st i hinv it hit
    exact hinv it ((List.eraseIdx_sublist _ i).subset hit)
  · intro st it hit
    cases hit

/-- Witness for C9: deleting the referenced category Housing is a no-op,
and deleting the unreferenced category Other removes it. -/
theorem C9_witness :
    deleteCategory ⟨[], [⟨"Housing", "rent", 5⟩], ["Housing", "Other"]⟩
        "Housing" =
      ⟨[], [⟨"Housing", "rent", 5⟩], ["Housing", "Other"]⟩ ∧
    (deleteCategory ⟨[], [⟨"Housing", "rent", 5⟩], ["Housing", "Other"]⟩
        "Other").custom_categories = ["Housing", "Other"].erase "Other" :=
  ⟨C9_category_integrity.1 _ "Housing" (by decide),
   (C9_category_integrity.2.1 _ "Other" (by decide)).1⟩

/-- C10: a successful add appends exactly one item at the end of the
corresponding list and leaves the other list and the categories
unchanged. -/
theorem C10_add_frame (st : BudgetState) (source cat name : String)
    (input : List Char) (v : ℚ) (hin : input.isEmpty = false)
    (hv : evaluate_math input = some v) (hpos : 0 < v) :
    (source ≠ "" → addIncome st source input =
      ⟨st.income_items ++ [⟨source, v⟩], st.expense_items,
        st.custom_categories⟩) ∧
    (name ≠ "" → addExpense st cat name input =
      ⟨st.income_items, st.expense_items ++ [⟨cat, name, v⟩],
        st.custom_categories⟩) := by
  constructor <;> intro h <;> simp [addIncome, addExpense, hin, hv, h, hpos]

/-- Witness for C10: adding income "job" of amount 2+2 on a concrete
state. -/
theorem C10_witness :
    addIncome ⟨[], [], ["Housing"]⟩ "job" "2+2".toList =
      ⟨[⟨"job", 4⟩], [], ["Housing"]⟩ :=
  (C10_add_frame ⟨[], [], ["Housing"]⟩ "job" "c" "n" "2+2".toList 4
    (by decide) (by with_unfolding_all rfl) (by norm_num)).1 (by decide)

/-!
The refinement proof for the amended C5: whenever the spec's restricted
four-operator evaluator (with the code's literal syntax and intra-line
token separators) accepts a whitelisted trimmed string, evaluate_math
returns the same value.  The two
parsers are related level by level by one induction on the fuel; the only
asymmetries are the extra power and floor-division operators on the
CPython side, which can never fire on a string the spec grammar accepts.
-/

theorem pyNumber_nil : pyNumber [] = none := rfl

theorem pyNumber_star (t : List Char) : pyNumber ('*' :: t) = none := rfl

theorem pyNumber_slash (t : List Char) : pyNumber ('/' :: t) = none := rfl

theorem sAtom_nil (n : Nat) : sAtom skipBlank pyNumber n [] = none := by
  cases n with
  | zero => rfl
  | succ k => rfl

theorem sAtom_star (n : Nat) (t : List Char) :
    sAtom skipBlank pyNumber n ('*' :: t) = none := by
  cases n with
  | zero => rfl
  | succ k => exact pyNumber_star t

theorem sAtom_slash (n : Nat) (t : List Char) :
    sAtom skipBlank pyNumber n ('/' :: t) = none := by
  cases n with
  | zero => rfl
  | succ k => exact pyNumber_slash t

theorem sPow_nil (n : Nat) : sPow skipBlank pyNumber n [] = none := by
  cases n with
  | zero => rfl
  | succ k => exact sAtom_nil k

theorem sPow_star (n : Nat) (t : List Char) :
    sPow skipBlank pyNumber n ('*' :: t) = none := by
  cases n with
  | zero => rfl
  | succ k => exact sAtom_star k t

theorem sPow_slash (n : Nat) (t : List Char) :
    sPow skipBlank pyNumber n ('/' :: t) = none := by
  cases n with
  | zero => rfl
  | succ k => exact sAtom_slash k t

theorem sF_nil (n : Nat) : sF skipBlank pyNumber n [] = none := by
  cases n with
  | zero => rfl
  | succ k => exact sPow_nil k

theorem sF_star (n : Nat) (t : List Char) : sF skipBlank pyNumber n ('*' :: t) = none := by
  cases n with
  | zero => rfl
  | succ k => exact sPow_star k t

theorem sF_slash (n : Nat) (t : List Char) :
    sF skipBlank pyNumber n ('/' :: t) = none := by
  cases n with
  | zero => rfl
  | succ k => exact sPow_slash k t

/-- A successful spec term loop never starts in front of two adjacent
stars: the loop would consume one star and the next factor would have to
start with the other, which no factor does. -/
theorem sTLoop_noPP {n : Nat} {a : ℚ} {s : List Char} {p : ℚ × List Char}
    (h : sTLoop skipBlank pyNumber n a s = some p) :
    ∀ x, skipBlank s ≠ '*' :: '*' :: x := by
  intro x hx
  cases n with
  | zero => cases h
  | succ k =>
    rw [sTLoop, hx] at h
    simp [sF_star] at h

/-! Step equations for the CPython-fragment parser, each conditioned on the
shape of the lookahead. -/

theorem pyAtom_paren {n : Nat} {s t r r2 : List Char} {v : ℚ}
    (hs : skipBlank s = '(' :: t) (ht : pyA n t = some (v, r))
    (hr : skipBlank r = ')' :: r2) : pyAtom (n+1) s = some (v, r2) := by
  rw [pyAtom, hs]
  simp [ht, hr]

theorem pyAtom_default {n : Nat} {s u : List Char} (hs : skipBlank s = u)
    (hu : ∀ t, u ≠ '(' :: t) : pyAtom (n+1) s = pyNumber u := by
  rw [pyAtom, hs]
  split
  · rename_i t
    exact absurd rfl (hu t)
  · rfl

theorem pyPow_noexp {n : Nat} {s r : List Char} {v : ℚ}
    (ha : pyAtom n s = some (v, r))
    (hr : ∀ x, skipBlank r ≠ '*' :: '*' :: x) : pyPow (n+1) s = some (v, r) := by
  simp only [pyPow, ha]


theorem pyU_neg {n : Nat} {s t r : List Char} {w : ℚ}
    (hs : skipBlank s = '-' :: t) (h : pyU n t = some (w, r)) :
    pyU (n+1) s = some (-w, r) := by
  rw [pyU, hs]
  simp [h]

theorem pyU_pos {n : Nat} {s t : List Char} (hs : skipBlank s = '+' :: t) :
    pyU (n+1) s = pyU n t := by
  simp only [pyU, hs]

theorem pyU_default {n : Nat} {s u : List Char} (hs : skipBlank s = u)
    (h1 : ∀ t, u ≠ '-' :: t) (h2 : ∀ t, u ≠ '+' :: t) :
    pyU (n+1) s = pyPow n u := by
  rw [pyU, hs]
  split
  · rename_i t
    exact absurd rfl (h1 t)
  · rename_i t
    exact absurd rfl (h2 t)
  · rfl

theorem pyM_eq {n : Nat} {s r : List Char} {v : ℚ}
    (h : pyU n s = some (v, r)) : pyM (n+1) s = pyMLoop n v r := by
  rw [pyM, h]

theorem pyMLoop_stop {n : Nat} {a : ℚ} {s u : List Char}
    (hs : skipBlank s = u) (h1 : ∀ x, u ≠ '*' :: x) (h2 : ∀ x, u ≠ '/' :: x) :
    pyMLoop (n+1) a s = some (a, s) := by
  rw [pyMLoop, hs]
  split
  · rfl
  · rename_i t hg
    exact absurd rfl (h1 t)
  · rename_i t
    exact absurd rfl (h2 ('/' :: t))
  · rename_i t hg
    exact absurd rfl (h2 t)
  · rfl

theorem pyMLoop_mul {n : Nat} {a w : ℚ} {s t r : List Char}
    (hs : skipBlank s = '*' :: t) (hne : ∀ x, t ≠ '*' :: x)
    (h : pyU n t = some (w, r)) : pyMLoop (n+1) a s = pyMLoop n (a * w) r := by
  rw [pyMLoop, hs]
  split
  · rename_i x heq
    rw [List.cons.injEq] at heq
    exact absurd heq.2 (hne x)
  · rename_i t' heq
    rw [List.cons.injEq] at heq
    rw [← heq.2, h]
  · rename_i t' heq
    rw [List.cons.injEq] at heq
    exact absurd heq.1 (by decide)
  · rename_i t' heq
    rw [List.cons.injEq] at heq
    exact absurd heq.1 (by decide)
  · rename_i g1 g2 g3 g4
    exact absurd rfl (g2 t)

theorem pyMLoop_div {n : Nat} {a w : ℚ} {s t r : List Char}
    (hs : skipBlank s = '/' :: t) (hne : ∀ x, t ≠ '/' :: x)
    (h : pyU n t = some (w, r)) (hw : ¬(w = 0)) :
    pyMLoop (n+1) a s = pyMLoop n (a / w) r := by
  rw [pyMLoop, hs]
  split
  · rename_i x heq
    rw [List.cons.injEq] at heq
    exact absurd heq.1 (by decide)
  · rename_i t' heq
    rw [List.cons.injEq] at heq
    exact absurd heq.1 (by decide)
  · rename_i t' heq
    rw [List.cons.injEq] at heq
    exact absurd heq.2 (hne t')
  · rename_i t' heq
    rw [List.cons.injEq] at heq
    rw [← heq.2, h]
    simp [hw]
  · rename_i g1 g2 g3 g4
    exact absurd rfl (g4 t)

theorem pyA_eq {n : Nat} {s r : List Char} {v : ℚ}
    (h : pyM n s = some (v, r)) : pyA (n+1) s = pyALoop n v r := by
  rw [pyA, h]

theorem pyALoop_stop {n : Nat} {a : ℚ} {s u : List Char}
    (hs : skipBlank s = u) (h1 : ∀ x, u ≠ '+' :: x) (h2 : ∀ x, u ≠ '-' :: x) :
    pyALoop (n+1) a s = some (a, s) := by
  rw [pyALoop, hs]
  split
  · rename_i t
    exact absurd rfl (h1 t)
  · rename_i t
    exact absurd rfl (h2 t)
  · rfl

theorem pyALoop_add {n : Nat} {a w : ℚ} {s t r : List Char}
    (hs : skipBlank s = '+' :: t) (h : pyM n t = some (w, r)) :
    pyALoop (n+1) a s = pyALoop n (a + w) r := by
  rw [pyALoop, hs]
  simp [h]

theorem pyALoop_sub {n : Nat} {a w : ℚ} {s t r : List Char}
    (hs : skipBlank s = '-' :: t) (h : pyM n t = some (w, r)) :
    pyALoop (n+1) a s = pyALoop n (a - w) r := by
  rw [pyALoop, hs]
  simp [h]

/-- Level-by-level agreement between the spec's restricted four-operator
parser (with the code's literal syntax) and the CPython-fragment parser,
at equal fuel: every parse the spec grammar performs, eval performs
identically.  The side condition at the factor levels records that the
rest of the input never starts with the power operator, which holds
whenever the surrounding spec loop succeeds. -/
theorem agreePack : ∀ n : Nat,
    (∀ s p, sAtom skipBlank pyNumber n s = some p → pyAtom n s = some p) ∧
    (∀ s v r, sPow skipBlank pyNumber n s = some (v, r) →
      (∀ x, skipBlank r ≠ '*' :: '*' :: x) → pyPow n s = some (v, r)) ∧
    (∀ s v r, sF skipBlank pyNumber n s = some (v, r) →
      (∀ x, skipBlank r ≠ '*' :: '*' :: x) → pyU n s = some (v, r)) ∧
    (∀ s p, sT skipBlank pyNumber n s = some p → pyM n s = some p) ∧
    (∀ a s p, sTLoop skipBlank pyNumber n a s = some p → pyMLoop n a s = some p) ∧
    (∀ s p, sE skipBlank pyNumber n s = some p → pyA n s = some p) ∧
    (∀ a s p, sELoop skipBlank pyNumber n a s = some p → pyALoop n a s = some p) := by
  intro n
  induction n with
  | zero =>
    refine ⟨?_, ?_, ?_, ?_, ?_, ?_, ?_⟩ <;> intros <;>
      simp_all [sAtom, sPow, sF, sT, sTLoop, sE, sELoop]
  | succ k ih =>
    obtain ⟨ihA, ihW, ihF, ihT, ihTL, ihE, ihEL⟩ := ih
    refine ⟨?_, ?_, ?_, ?_, ?_, ?_, ?_⟩
    · -- atoms
      intro s p h
      rw [sAtom] at h
      split at h
      · rename_i t heq
        split at h
        · rename_i v r heq2
          split at h
          · rename_i r2 heq3
            rw [pyAtom_paren heq (ihE t (v, r) heq2) heq3]
            exact h
          · exact Option.noConfusion h
        · exact Option.noConfusion h
      · rename_i u hne
        rw [pyAtom_default rfl (fun t ht => hne t ht)]
        exact h
    · -- pass-through power level
      intro s v r h hr
      rw [sPow] at h
      exact pyPow_noexp (ihA s (v, r) h) hr
    · -- unary factors
      intro s v r h hpp
      rw [sF] at h
      split at h
      · rename_i t heq
        split at h
        · rename_i w r' heq2
          injection h with h'
          rw [Prod.mk.injEq] at h'
          obtain ⟨h1, h2⟩ := h'
          have hpp' : ∀ x, skipBlank r' ≠ '*' :: '*' :: x := by
            rw [h2]; exact hpp
          rw [pyU_neg heq (ihF t w r' heq2 hpp'), h1, h2]
        · exact Option.noConfusion h
      · rename_i t heq
        rw [pyU_pos heq]
        exact ihF t v r h hpp
      · rename_i hn1 hn2
        rw [pyU_default rfl (fun t ht => hn1 t ht) (fun t ht => hn2 t ht)]
        exact ihW (skipBlank s) v r h hpp
    · -- terms
      intro s p h
      rw [sT] at h
      split at h
      · rename_i v r heq
        rw [pyM_eq (ihF s v r heq (sTLoop_noPP h))]
        exact ihTL v r p h
      · exact Option.noConfusion h
    · -- multiplicative loops
      intro a s p h
      rw [sTLoop] at h
      split at h
      · rename_i t heq
        split at h
        · rename_i w r heq2
          have hne : ∀ x, t ≠ '*' :: x := by
            intro x hx
            rw [hx, sF_star] at heq2
            exact Option.noConfusion heq2
          rw [pyMLoop_mul heq hne (ihF t w r heq2 (sTLoop_noPP h))]
          exact ihTL (a * w) r p h
        · exact Option.noConfusion h
      · rename_i t heq
        split at h
        · rename_i w r heq2
          split at h
          · exact Option.noConfusion h
          · rename_i hw
            have hne : ∀ x, t ≠ '/' :: x := by
              intro x hx
              rw [hx, sF_slash] at heq2
              exact Option.noConfusion heq2
            rw [pyMLoop_div heq hne (ihF t w r heq2 (sTLoop_noPP h)) hw]
            exact ihTL (a / w) r p h
        · exact Option.noConfusion h
      · rename_i hn1 hn2
        rw [pyMLoop_stop rfl (fun x hx => hn1 x hx) (fun x hx => hn2 x hx)]
        exact h
    · -- expressions
      intro s p h
      rw [sE] at h
      split at h
      · rename_i v r heq
        rw [pyA_eq (ihT s (v, r) heq)]
        exact ihEL v r p h
      · exact Option.noConfusion h
    · -- additive loops
      intro a s p h
      rw [sELoop] at h
      split at h
      · rename_i t heq
        split at h
        · rename_i w r heq2
          rw [pyALoop_add heq (ihT t (w, r) heq2)]
          exact ihEL (a + w) r p h
        · exact Option.noConfusion h
      · rename_i t heq
        split at h
        · rename_i w r heq2
          rw [pyALoop_sub heq (ihT t (w, r) heq2)]
          exact ihEL (a - w) r p h
        · exact Option.noConfusion h
      · rename_i hn1 hn2
        rw [pyALoop_stop rfl (fun x hx => hn1 x hx) (fun x hx => hn2 x hx)]
        exact h

/-!
Agreement between the float() fast path and the spec evaluator on literal
strings: when both accept, the values coincide, so the fast path of
evaluate_math returns what the spec demands.
-/

/-- A digit run never starts at a non-digit character. -/
theorem takeUDigits_neg {c : Char} {t : List Char} (hc : c.isDigit = false) :
    takeUDigits (c :: t) = ([], c :: t) := by
  unfold takeUDigits
  rw [hc]
  rfl

/-- A string with a successful mantissa parse starts with a digit or a
point. -/
theorem decMantissa_head {s : List Char} {m : ℚ} {r : List Char}
    (h : decMantissa s = some (m, r)) :
    ∃ c t, s = c :: t ∧ (c.isDigit = true ∨ c = '.') := by
  cases s with
  | nil => exact Option.noConfusion h
  | cons c t =>
    refine ⟨c, t, rfl, ?_⟩
    by_cases hc : c.isDigit = true
    · exact Or.inl hc
    · right
      by_contra hne
      have hc' : c.isDigit = false := Bool.eq_false_iff.mpr hc
      rw [decMantissa, takeUDigits_neg hc'] at h
      split at h
      · rename_i d1 r2 heq
        rw [Prod.mk.injEq, List.cons.injEq] at heq
        exact hne heq.2.1
      · rename_i d1 r1 heq
        rw [Prod.mk.injEq] at heq
        rw [← heq.1] at h
        simp at h

/-- Digits and the point are not blanks, parentheses or sign characters. -/
theorem digitOrDot_facts {c : Char} (hc : c.isDigit = true ∨ c = '.') :
    isBlank c = false ∧ c ≠ '(' ∧ c ≠ '-' ∧ c ≠ '+' := by
  rcases hc with hd | rfl
  · refine ⟨?_, ?_, ?_, ?_⟩
    · rw [isBlank]
      by_cases h1 : c = ' '
      · subst h1; exact absurd hd (by decide)
      · by_cases h2 : c = '\t'
        · subst h2; exact absurd hd (by decide)
        · by_cases h3 : c = '\x0c'
          · subst h3; exact absurd hd (by decide)
          · simp [h1, h2, h3]
    · intro h; subst h; exact absurd hd (by decide)
    · intro h; subst h; exact absurd hd (by decide)
    · intro h; subst h; exact absurd hd (by decide)
  · exact ⟨by decide, by decide, by decide, by decide⟩

/-- A successful factor parse of a string whose mantissa parses is exactly
that mantissa. -/
theorem sF_mantissa {n : Nat} {t₁ : List Char} {m : ℚ} {r : List Char}
    {p : ℚ × List Char} (hdm : decMantissa t₁ = some (m, r))
    (h : sF skipBlank pyNumber n t₁ = some p) : p = (m, r) := by
  obtain ⟨c, t₂, rfl, hc⟩ := decMantissa_head hdm
  obtain ⟨hb, hpar, hminus, hplus⟩ := digitOrDot_facts hc
  have hsb : skipBlank (c :: t₂) = c :: t₂ := by
    rw [skipBlank, List.dropWhile_cons, hb]
    simp
  cases n with
  | zero => exact Option.noConfusion h
  | succ k =>
    rw [sF, hsb] at h
    split at h
    · rename_i t heq
      rw [List.cons.injEq] at heq
      exact absurd heq.1 hminus
    · rename_i t heq
      rw [List.cons.injEq] at heq
      exact absurd heq.1 hplus
    · cases k with
      | zero => exact Option.noConfusion h
      | succ k2 =>
        rw [sPow] at h
        cases k2 with
        | zero => exact Option.noConfusion h
        | succ k3 =>
          rw [sAtom, hsb] at h
          split at h
          · rename_i t heq
            rw [List.cons.injEq] at heq
            exact absurd heq.1 hpar
          · rw [pyNumber] at h
            split at h
            · exact Option.noConfusion h
            · rw [hdm] at h
              exact (Option.some.inj h).symm

/-- A successful factor parse of a minus sign followed by a mantissa
string is the negated mantissa. -/
theorem sF_neg_mantissa {n : Nat} {t₁ : List Char} {m : ℚ} {r : List Char}
    {p : ℚ × List Char} (hdm : decMantissa t₁ = some (m, r))
    (h : sF skipBlank pyNumber n ('-' :: t₁) = some p) : p = (-m, r) := by
  cases n with
  | zero => exact Option.noConfusion h
  | succ k =>
    rw [sF, show skipBlank ('-' :: t₁) = '-' :: t₁ from rfl] at h
    split at h
    · rename_i t heq
      rw [List.cons.injEq] at heq
      obtain ⟨-, h2⟩ := heq
      subst h2
      split at h
      · rename_i w r' heq2
        have h3 := sF_mantissa hdm heq2
        rw [Prod.mk.injEq] at h3
        obtain ⟨rfl, rfl⟩ := h3
        exact (Option.some.inj h).symm
      · exact Option.noConfusion h
    · rename_i t heq
      rw [List.cons.injEq] at heq
      exact absurd heq.1 (by decide)
    · rename_i hn1 hn2
      exact absurd rfl (hn1 t₁)

/-- A successful factor parse of a plus sign followed by a mantissa string
is the mantissa. -/
theorem sF_pos_mantissa {n : Nat} {t₁ : List Char} {m : ℚ} {r : List Char}
    {p : ℚ × List Char} (hdm : decMantissa t₁ = some (m, r))
    (h : sF skipBlank pyNumber n ('+' :: t₁) = some p) : p = (m, r) := by
  cases n with
  | zero => exact Option.noConfusion h
  | succ k =>
    rw [sF, show skipBlank ('+' :: t₁) = '+' :: t₁ from rfl] at h
    split at h
    · rename_i t heq
      rw [List.cons.injEq] at heq
      exact absurd heq.1 (by decide)
    · rename_i t heq
      rw [List.cons.injEq] at heq
      obtain ⟨-, h2⟩ := heq
      subst h2
      exact sF_mantissa hdm h
    · rename_i hn1 hn2
      exact absurd rfl (hn2 t₁)

/-- A term loop that starts in front of anything but * or / stops at
once. -/
theorem sTLoop_stop {n : Nat} {a : ℚ} {s : List Char} {p : ℚ × List Char}
    (h : sTLoop skipBlank pyNumber n a s = some p)
    (h1 : ∀ x, skipBlank s ≠ '*' :: x) (h2 : ∀ x, skipBlank s ≠ '/' :: x) :
    p = (a, s) := by
  cases n with
  | zero => exact Option.noConfusion h
  | succ k =>
    rw [sTLoop] at h
    split at h
    · rename_i t heq
      exact absurd heq (h1 t)
    · rename_i t heq
      exact absurd heq (h2 t)
    · exact (Option.some.inj h).symm

/-- An expression loop that starts in front of anything but + or - stops
at once. -/
theorem sELoop_stop {n : Nat} {a : ℚ} {s : List Char} {p : ℚ × List Char}
    (h : sELoop skipBlank pyNumber n a s = some p)
    (h1 : ∀ x, skipBlank s ≠ '+' :: x) (h2 : ∀ x, skipBlank s ≠ '-' :: x) :
    p = (a, s) := by
  cases n with
  | zero => exact Option.noConfusion h
  | succ k =>
    rw [sELoop] at h
    split at h
    · rename_i t heq
      exact absurd heq (h1 t)
    · rename_i t heq
      exact absurd heq (h2 t)
    · exact (Option.some.inj h).symm

/-- A full spec parse of a string whose only factor parse is (m, r), with
no operator following r, yields exactly (m, r). -/
theorem sE_literal {n : Nat} {s : List Char} {m : ℚ} {r : List Char}
    {p : ℚ × List Char} (hrun : sE skipBlank pyNumber n s = some p)
    (hfact : ∀ {k : Nat} {q : ℚ × List Char},
      sF skipBlank pyNumber k s = some q → q = (m, r))
    (hr1 : ∀ x, skipBlank r ≠ '*' :: x) (hr2 : ∀ x, skipBlank r ≠ '/' :: x)
    (hr3 : ∀ x, skipBlank r ≠ '+' :: x) (hr4 : ∀ x, skipBlank r ≠ '-' :: x) :
    p = (m, r) := by
  cases n with
  | zero => exact Option.noConfusion hrun
  | succ k =>
    rw [sE] at hrun
    split at hrun
    · rename_i v1 r1 heq
      cases k with
      | zero => exact Option.noConfusion heq
      | succ k2 =>
        rw [sT] at heq
        split at heq
        · rename_i v2 r2 heq2
          have h22 := hfact heq2
          rw [Prod.mk.injEq] at h22
          obtain ⟨rfl, rfl⟩ := h22
          have hstop := sTLoop_stop heq hr1 hr2
          rw [Prod.mk.injEq] at hstop
          obtain ⟨rfl, rfl⟩ := hstop
          exact sELoop_stop hrun hr3 hr4
        · exact Option.noConfusion heq
    · exact Option.noConfusion hrun

/-- Nothing follows the empty rest. -/
theorem noOps_nil :
    (∀ x, skipBlank ([] : List Char) ≠ '*' :: x) ∧
    (∀ x, skipBlank ([] : List Char) ≠ '/' :: x) ∧
    (∀ x, skipBlank ([] : List Char) ≠ '+' :: x) ∧
    (∀ x, skipBlank ([] : List Char) ≠ '-' :: x) :=
  ⟨fun _ hx => List.noConfusion hx, fun _ hx => List.noConfusion hx,
   fun _ hx => List.noConfusion hx, fun _ hx => List.noConfusion hx⟩

/-- A rest headed by a non-blank non-operator character is not followed by
an operator. -/
theorem noOps_of_head {c : Char} {r1 : List Char}
    (hb : isBlank c = false) (h1 : c ≠ '*') (h2 : c ≠ '/') (h3 : c ≠ '+')
    (h4 : c ≠ '-') :
    (∀ x, skipBlank (c :: r1) ≠ '*' :: x) ∧
    (∀ x, skipBlank (c :: r1) ≠ '/' :: x) ∧
    (∀ x, skipBlank (c :: r1) ≠ '+' :: x) ∧
    (∀ x, skipBlank (c :: r1) ≠ '-' :: x) := by
  have hsb : skipBlank (c :: r1) = c :: r1 := by
    rw [skipBlank, List.dropWhile_cons, hb]
    simp
  refine ⟨?_, ?_, ?_, ?_⟩ <;>
    · intro x hx
      rw [hsb, List.cons.injEq] at hx
      first
      | exact h1 hx.1
      | exact h2 hx.1
      | exact h3 hx.1
      | exact h4 hx.1

/-- Inversion for the unsigned float parse: a mantissa and either nothing
or an exponent marker. -/
theorem pyFloatCore_inv {t₁ : List Char} {m0 : ℚ}
    (h : pyFloatCore t₁ = some m0) :
    ∃ m r, decMantissa t₁ = some (m, r) ∧
      ((r = [] ∧ m0 = m) ∨ ∃ r1, r = 'e' :: r1 ∨ r = 'E' :: r1) := by
  rw [pyFloatCore] at h
  split at h
  · exact Option.noConfusion h
  · rename_i m r heq
    split at h
    · exact ⟨m, [], heq, Or.inl ⟨rfl, (Option.some.inj h).symm⟩⟩
    · rename_i c r1
      split at h
      · rename_i hc
        rw [Bool.or_eq_true, decide_eq_true_eq, decide_eq_true_eq] at hc
        rcases hc with rfl | rfl
        · exact ⟨m, _, heq, Or.inr ⟨r1, Or.inl rfl⟩⟩
        · exact ⟨m, _, heq, Or.inr ⟨r1, Or.inr rfl⟩⟩
      · exact Option.noConfusion h

/-- A successful whole-string spec parse of a literal-shaped string values
to the factor's value, and the mantissa rest must have been empty. -/
theorem spec_literal_top {F : Nat} {s : List Char} {a : ℚ} {r : List Char}
    {v0 : ℚ} {r0 : List Char}
    (heq : sE skipBlank pyNumber F s = some (v0, r0))
    (hfact : ∀ {k : Nat} {q : ℚ × List Char},
      sF skipBlank pyNumber k s = some q → q = (a, r))
    (hemp : (skipBlank r0).isEmpty = true)
    (hshape : r = [] ∨ ∃ c r1, r = c :: r1 ∧ (c = 'e' ∨ c = 'E')) :
    v0 = a := by
  rcases hshape with rfl | ⟨c, r1, rfl, hc⟩
  · obtain ⟨n1, n2, n3, n4⟩ := noOps_nil
    have hp := sE_literal heq hfact n1 n2 n3 n4
    rw [Prod.mk.injEq] at hp
    exact hp.1
  · have hb : isBlank c = false := by rcases hc with rfl | rfl <;> decide
    have h1 : c ≠ '*' := by rcases hc with rfl | rfl <;> decide
    have h2 : c ≠ '/' := by rcases hc with rfl | rfl <;> decide
    have h3 : c ≠ '+' := by rcases hc with rfl | rfl <;> decide
    have h4 : c ≠ '-' := by rcases hc with rfl | rfl <;> decide
    obtain ⟨n1, n2, n3, n4⟩ := noOps_of_head hb h1 h2 h3 h4
    have hp := sE_literal heq hfact n1 n2 n3 n4
    rw [Prod.mk.injEq] at hp
    obtain ⟨-, rfl⟩ := hp
    have hsb : skipBlank (c :: r1) = c :: r1 := by
      rw [skipBlank, List.dropWhile_cons, hb]
      simp
    rw [hsb] at hemp
    simp at hemp

/-- The mantissa rest of a successful whole-string spec parse of a
literal-shaped string is empty (the exponent marker shape contradicts the
empty-rest condition, as derived inside spec_literal_top; here we only
need the shape disjunction trimmed to its first case). -/
theorem lit_rest_nil {F : Nat} {s : List Char} {a : ℚ} {r : List Char}
    {v0 : ℚ} {r0 : List Char}
    (heq : sE skipBlank pyNumber F s = some (v0, r0))
    (hfact : ∀ {k : Nat} {q : ℚ × List Char},
      sF skipBlank pyNumber k s = some q → q = (a, r))
    (hemp : (skipBlank r0).isEmpty = true)
    (hshape : r = [] ∨ ∃ c r1, r = c :: r1 ∧ (c = 'e' ∨ c = 'E')) :
    r = [] := by
  rcases hshape with rfl | ⟨c, r1, rfl, hc⟩
  · rfl
  · have hb : isBlank c = false := by rcases hc with rfl | rfl <;> decide
    have h1 : c ≠ '*' := by rcases hc with rfl | rfl <;> decide
    have h2 : c ≠ '/' := by rcases hc with rfl | rfl <;> decide
    have h3 : c ≠ '+' := by rcases hc with rfl | rfl <;> decide
    have h4 : c ≠ '-' := by rcases hc with rfl | rfl <;> decide
    obtain ⟨n1, n2, n3, n4⟩ := noOps_of_head hb h1 h2 h3 h4
    have hp := sE_literal heq hfact n1 n2 n3 n4
    rw [Prod.mk.injEq] at hp
    obtain ⟨-, rfl⟩ := hp
    have hsb : skipBlank (c :: r1) = c :: r1 := by
      rw [skipBlank, List.dropWhile_cons, hb]
      simp
    rw [hsb] at hemp
    simp at hemp

/-- When both the float() fast path and the spec evaluator accept a
string, they agree on the value. -/
theorem litAgree {t : List Char} {v w : ℚ} (hf : pyFloat? t = some w)
    (hs : specEvalStrict t = some v) : v = w := by
  unfold specEvalStrict at hs
  split at hs
  · rename_i v0 r0 heq
    split at hs
    · rename_i hemp
      injection hs with hs'
      subst hs'
      unfold pyFloat? at hf
      split at hf
      · rename_i t₁
        rw [Option.map_eq_some'] at hf
        obtain ⟨m0, hcore, hwm⟩ := hf
        obtain ⟨m, r, hdm, hcase⟩ := pyFloatCore_inv hcore
        have hshape : r = [] ∨ ∃ c r1, r = c :: r1 ∧ (c = 'e' ∨ c = 'E') := by
          rcases hcase with ⟨h1, -⟩ | ⟨r1, hr⟩
          · exact Or.inl h1
          · rcases hr with rfl | rfl
            · exact Or.inr ⟨'e', r1, rfl, Or.inl rfl⟩
            · exact Or.inr ⟨'E', r1, rfl, Or.inr rfl⟩
        have hv0 := spec_literal_top heq
          (fun {k q} hq => sF_neg_mantissa hdm hq) hemp hshape
        have hrnil := lit_rest_nil heq
          (fun {k q} hq => sF_neg_mantissa hdm hq) hemp hshape
        subst hrnil
        rcases hcase with ⟨-, hm0⟩ | ⟨r1, hr⟩
        · rw [hv0, ← hwm, hm0]
        · rcases hr with h | h <;> exact List.noConfusion h
      · rename_i t₁
        obtain ⟨m, r, hdm, hcase⟩ := pyFloatCore_inv hf
        have hshape : r = [] ∨ ∃ c r1, r = c :: r1 ∧ (c = 'e' ∨ c = 'E') := by
          rcases hcase with ⟨h1, -⟩ | ⟨r1, hr⟩
          · exact Or.inl h1
          · rcases hr with rfl | rfl
            · exact Or.inr ⟨'e', r1, rfl, Or.inl rfl⟩
            · exact Or.inr ⟨'E', r1, rfl, Or.inr rfl⟩
        have hv0 := spec_literal_top heq
          (fun {k q} hq => sF_pos_mantissa hdm hq) hemp hshape
        have hrnil := lit_rest_nil heq
          (fun {k q} hq => sF_pos_mantissa hdm hq) hemp hshape
        subst hrnil
        rcases hcase with ⟨-, hm0⟩ | ⟨r1, hr⟩
        · rw [hv0, hm0]
        · rcases hr with h | h <;> exact List.noConfusion h
      · obtain ⟨m, r, hdm, hcase⟩ := pyFloatCore_inv hf
        have hshape : r = [] ∨ ∃ c r1, r = c :: r1 ∧ (c = 'e' ∨ c = 'E') := by
          rcases hcase with ⟨h1, -⟩ | ⟨r1, hr⟩
          · exact Or.inl h1
          · rcases hr with rfl | rfl
            · exact Or.inr ⟨'e', r1, rfl, Or.inl rfl⟩
            · exact Or.inr ⟨'E', r1, rfl, Or.inr rfl⟩
        have hv0 := spec_literal_top heq
          (fun {k q} hq => sF_mantissa hdm hq) hemp hshape
        have hrnil := lit_rest_nil heq
          (fun {k q} hq => sF_mantissa hdm hq) hemp hshape
        subst hrnil
        rcases hcase with ⟨-, hm0⟩ | ⟨r1, hr⟩
        · rw [hv0, hm0]
        · rcases hr with h | h <;> exact List.noConfusion h
    · exact Option.noConfusion hs
  · exact Option.noConfusion hs

/-- Whenever the spec's restricted evaluator accepts a string, the model
of eval accepts it with the same value. -/
theorem specStrict_imp_pyEval {s : List Char} {v : ℚ}
    (h : specEvalStrict s = some v) : pyEvalExpr s = some v := by
  unfold specEvalStrict at h
  unfold pyEvalExpr
  split at h
  · rename_i w r heq
    rw [(agreePack (pyFuel s)).2.2.2.2.2.1 s (w, r) heq]
    exact h
  · exact Option.noConfusion h

/-- C5 counterexample: two whitelisted well-formed expressions of the
conventional four-operator grammar that evaluate_math rejects.  "01+1"
has value 2 (specEvalConv computes it), but CPython's prohibition of
leading zeros in integer literals leaks through the delegation to eval.
"2" + newline + "2" has value 4 — the whitelist admits any whitespace
between tokens and the spec grammar separates tokens by whitespace — but
a bare newline ends eval's logical line, a SyntaxError, so tokens may in
fact be separated only by CPython's intra-line whitespace (space, tab,
form feed). -/
theorem C5_counterexample :
    (pyWhitelisted "01+1".toList = true ∧
      specEvalConv "01+1".toList = some 2 ∧
      evaluate_math "01+1".toList = none) ∧
    (pyWhitelisted "2+\n2".toList = true ∧
      specEvalConv "2+\n2".toList = some 4 ∧
      evaluate_math "2+\n2".toList = none) :=
  ⟨⟨by decide, by with_unfolding_all rfl, by with_unfolding_all rfl⟩,
   ⟨by decide, by with_unfolding_all rfl, by with_unfolding_all rfl⟩⟩

/-- C5 amended: for every whitelisted (after trimming) expression of the
spec's four-operator grammar whose integer literals carry no superfluous
leading zeros and whose tokens are separated only by space, tab or form
feed (CPython's intra-line whitespace — specEvalStrict embodies both
restrictions, each forced by its half of the counterexample),
evaluate_math computes exactly the value given by conventional precedence
and parenthesis grouping; in particular 2+2 = 4, (1+2)*3 = 9 and
40*52/12 = 520/3. -/
theorem C5_evaluates_wellformed :
    (∀ (s : List Char) (v : ℚ), pyWhitelisted (pyStrip s) = true →
      specEvalStrict (pyStrip s) = some v → evaluate_math s = some v) ∧
    evaluate_math "2+2".toList = some 4 ∧
    evaluate_math "(1+2)*3".toList = some 9 ∧
    evaluate_math "40*52/12".toList = some (520 / 3) := by
  refine ⟨?_, by with_unfolding_all rfl, by with_unfolding_all rfl,
    by with_unfolding_all rfl⟩
  intro s v hwl hspec
  cases hff : pyFloat? (pyStrip s) with
  | none =>
    simp only [evaluate_math, hff, hwl, if_true]
    exact specStrict_imp_pyEval hspec
  | some w =>
    simp only [evaluate_math, hff]
    rw [litAgree hff hspec]

/-- Witness for the amended C5 at the expression 2*3. -/
theorem C5_witness : evaluate_math "2*3".toList = some 6 :=
  C5_evaluates_wellformed.1 "2*3".toList 6 (by decide)
    (by with_unfolding_all rfl)

/-- C1 counterexample: "2**3" is a whitelisted string that no parser of
the restricted four-operator grammar accepts (specEvalConv rejects it),
yet evaluate_math evaluates it to 8 — the exponentiation operator of the
general-purpose interpreter is reachable, so the evaluator is not a
restricted arithmetic-expression parser. -/
theorem C1_counterexample :
    pyWhitelisted "2**3".toList = true ∧
    specEvalConv "2**3".toList = none ∧
    evaluate_math "2**3".toList = some 8 :=
  ⟨by decide, by with_unfolding_all rfl, by with_unfolding_all rfl⟩

/-- A whitelisted character is never a letter or an underscore, the
building blocks of Python identifiers and attribute names. -/
theorem wlChar_not_ident {c : Char} (h : wlChar c = true) :
    ¬(c.isAlpha = true ∨ c = '_') := by
  intro hc
  have hd : c.isDigit = true ∨ (c = '+' ∨ c = '-' ∨ c = '*' ∨ c = '/' ∨
      c = '.' ∨ c = '(' ∨ c = ')' ∨ c = ' ' ∨ c = '\t' ∨ c = '\n' ∨
      c = '\r' ∨ c = '\x0b' ∨ c = '\x0c' ∨ c = '\x1c' ∨ c = '\x1d' ∨
      c = '\x1e' ∨ c = '\x1f') := by
    simpa [wlChar, isPySpace, Bool.or_eq_true, decide_eq_true_eq,
      or_assoc] using h
  rcases hd with hd | hd
  · rcases hc with hc | rfl
    · simp only [Char.isDigit, Bool.and_eq_true, decide_eq_true_eq] at hd
      simp only [Char.isAlpha, Char.isUpper, Char.isLower, Bool.or_eq_true,
        Bool.and_eq_true, decide_eq_true_eq] at hc
      obtain ⟨hd1, hd2⟩ := hd
      have hd2' : c.val.toNat ≤ 57 := hd2
      rcases hc with ⟨h1, -⟩ | ⟨h1, -⟩
      · have h1' : 65 ≤ c.val.toNat := h1
        omega
      · have h1' : 97 ≤ c.val.toNat := h1
        omega
    · exact absurd hd (by decide)
  · rcases hd with rfl | rfl | rfl | rfl | rfl | rfl | rfl | rfl | rfl |
      rfl | rfl | rfl | rfl | rfl | rfl | rfl | rfl <;>
      exact absurd hc (by decide)

/-- C1 amended: on whitelisted input no identifier, attribute name or
call target can ever be formed — the whitelist admits no letter and no
underscore — but the evaluator is not a restricted four-operator parser:
it delegates to the general-purpose interpreter (with emptied builtins),
which also evaluates the floor-division operator (and exponentiation, see
the counterexample). -/
theorem C1_no_identifier_chars :
    (∀ s : List Char, pyWhitelisted s = true →
      ∀ c ∈ s, ¬(c.isAlpha = true ∨ c = '_')) ∧
    evaluate_math "7//2".toList = some 3 := by
  refine ⟨?_, by with_unfolding_all rfl⟩
  intro s hs c hc
  have hall := (Bool.and_eq_true _ _).mp hs |>.2
  exact wlChar_not_ident (List.all_eq_true.mp hall c hc)

/-- Witness for the amended C1 at the whitelisted string 2+2. -/
theorem C1_witness : ¬(('+' : Char).isAlpha = true ∨ ('+' : Char) = '_') :=
  C1_no_identifier_chars.1 "2+2".toList (by decide) '+' (by decide)
